import Mathlib

/-!
Verification development for the discrete-field (finite-element function)
core of `dolfin::Function` (src/dolfin/function/Function.h).

The source slice is the declaration-only header `Function.h`; the member
definitions (Function.cpp) are not part of the slice, so the behavior of
`restrict`, `gather`, `eval`, `compute_vertex_values`, the constructors and
the scratch machinery is modelled from the specification (spec.md §3-§4.5),
keeping the header's names and member layout.  Scalar coefficient values
(`double` in the source) are modelled as exact rationals: every claim under
study is about which entries move where, never about rounding.
-/

namespace dolfin

/-- Scalar coefficient value.  C++ `double`, modelled as an exact rational. -/
abbrev Scalar := Rat

/-- Modelled from the spec: the `FunctionSpaceDescriptor` collaborator
(spec §3, §6); the concrete FunctionSpace class is not in the source slice.
`globalDim` is the total global dof count, `cellDofs` maps a cell index to
the ordered sequence of global dof indices (`cellDofIndices(cell)`),
`value_size` is the number of entries in a tensor value, and `subRange`
assigns to each sub-component a contiguous global dof sub-range. -/
structure FunctionSpace where
  globalDim : Nat
  cellDofs : List (List Nat)
  value_size : Nat
  subRange : List (Nat × Nat)
deriving DecidableEq

/-- Modelled from the spec: the element collaborator (spec §6); the concrete
FiniteElement class is not in the source slice.  `space_dimension` is the
per-cell dof count, `basis_values x` gives, per dof, the value tensor of its
basis function at point `x`, and `vertex_basis j` gives, per dof, the scalar
basis value at the cell-local vertex with index `j`. -/
structure FiniteElement where
  space_dimension : Nat
  value_size : Nat
  basis_values : List Scalar → List (List Scalar)
  vertex_basis : Nat → List Scalar

/-- Modelled from the spec: the mesh collaborator (spec §6); the concrete
Mesh class is not in the source slice.  `cellVertices` maps a cell index to
its vertex indices in cell-local order, and `locate` is the point-location
service (the header's `IntersectionDetector`): it returns the cell
containing a point, or `none`. -/
structure Mesh where
  num_cells : Nat
  num_vertices : Nat
  cellVertices : List (List Nat)
  locate : List Scalar → Option Nat

/-- The header's nested `Function::LocalScratch` (Function.h:179-207): its
buffers `dofs`, `coefficients`, `values` are modelled by the sizes they are
allocated with (`n_dofs` dofs/coefficients entries, `size` value entries)
plus an `inited` flag. -/
structure LocalScratch where
  size : Nat
  n_dofs : Nat
  inited : Bool
deriving DecidableEq

/-- The header's nested `Function::GatherScratch` (Function.h:212-253): six
`dim`-sized arrays allocated by `init(dim)`, modelled by their common size
and an `inited` flag. -/
structure GatherScratch where
  dim : Nat
  inited : Bool
deriving DecidableEq

/-- The state of one `dolfin::Function` object on one process, following the
member list of Function.h:148-256.  The coefficient vector `_vector` is a
shared (possibly aliased) `GenericVector`, modelled as a reference `vecId`
into an external heap of vectors; `owned_start`/`owned_end` is the calling
process's owned contiguous global-index range of that distributed vector,
and `localCells` are the cells held locally by this process.
`_off_process_vector`, `global_to_local` and `_off_process_dofs` are the
off-process cache members of the header; `sub_functions` records the indices
of cached sub-functions; `local_alloc_count` counts LocalScratch buffer
allocations, to make heap allocation on the restriction path observable. -/
structure Function where
  _function_space : FunctionSpace
  vecId : Nat
  owned_start : Nat
  owned_end : Nat
  localCells : List Nat
  _off_process_vector : Option (List Scalar)
  global_to_local : List (Nat × Nat)
  _off_process_dofs : List Nat
  sub_functions : List Nat
  local_scratch : LocalScratch
  gather_scratch : GatherScratch
  local_alloc_count : Nat
deriving DecidableEq

/-- A heap of coefficient vectors, indexed by vector reference.  Several
fields (a parent and its sub-functions) may hold the same reference. -/
abbrev Heap := Nat → List Scalar

/-- Read entry `i` of a coefficient vector (out-of-range reads default 0). -/
def vecGet (v : List Scalar) (i : Nat) : Scalar := v.getD i 0

/-- Overwrite the vector stored at reference `i` (external mutation of a
shared `GenericVector`). -/
def heapSet (h : Heap) (i : Nat) (v : List Scalar) : Heap :=
  fun j => if j = i then v else h j

/-- The coefficient vector a field currently refers to. -/
def vecOf (h : Heap) (st : Function) : List Scalar := h st.vecId

/-- Modelled from the spec: the owned-range check of spec §4.1 step 2 (the
`GenericVector` partition query is not in the source slice). -/
def owns (st : Function) (d : Nat) : Bool :=
  decide (st.owned_start ≤ d) && decide (d < st.owned_end)

/-- Error taxonomy of spec §7. -/
inductive FunctionError where
  | domainMismatch
  | staleCache
  | communicationError
  | pointNotFound
  | dimensionMismatch
deriving DecidableEq

/-- First-match lookup in an association list, modelling the header's
`std::map<uint, uint> global_to_local` (Function.h:172). -/
def lookupPairs : List (Nat × Nat) → Nat → Option Nat
  | [], _ => none
  | p :: ps, d => if p.1 = d then some p.2 else lookupPairs ps d

/-- Look a global dof index up in the off-process cache: translate it through
`global_to_local` and read `_off_process_vector` at the local position;
`none` when the cache is absent or does not hold the index. -/
def cacheLookup (st : Function) (d : Nat) : Option Scalar :=
  match st._off_process_vector with
  | none => none
  | some vals =>
    match lookupPairs st.global_to_local d with
    | some i => some (vals.getD i 0)
    | none => none

/-- Modelled from the spec: one row of `Function::get` (Function.h:164,
spec §4.1 step 3; Function.cpp is not in the source slice).  An owned index
is read directly from the coefficient vector; a non-owned index is resolved
through the off-process cache and is a `staleCache` error when absent —
never a silently substituted value. -/
def getOne (h : Heap) (st : Function) (d : Nat) : Except FunctionError Scalar :=
  if owns st d then .ok (vecGet (vecOf h st) d)
  else
    match cacheLookup st d with
    | some v => .ok v
    | none => .error .staleCache

/-- Short-circuiting row-wise read: the loop of `Function::get` over the
requested rows, stopping at the first failing row. -/
def mapE (f : Nat → Except FunctionError Scalar) :
    List Nat → Except FunctionError (List Scalar)
  | [] => .ok []
  | d :: ds =>
    match f d with
    | .ok v =>
      match mapE f ds with
      | .ok vs => .ok (v :: vs)
      | .error e => .error e
    | .error e => .error e

/-- Modelled from the spec: `Function::get(block, m, rows)` (Function.h:164),
reading the given rows in order. -/
def get (h : Heap) (st : Function) (rows : List Nat) : Except FunctionError (List Scalar) :=
  mapE (getOne h st) rows

/-- Modelled from the spec: lazy sizing of `LocalScratch` (spec §4.1 step 4:
scratch sized once to the element, reused afterwards).  Resizing allocates
(increments `local_alloc_count`); a scratch already sized for the element is
reused unchanged. -/
def ensure_scratch (st : Function) (e : FiniteElement) : Function :=
  if st.local_scratch.inited && st.local_scratch.n_dofs == e.space_dimension
      && st.local_scratch.size == e.value_size then st
  else
    { st with
      local_scratch := { size := e.value_size, n_dofs := e.space_dimension, inited := true },
      local_alloc_count := st.local_alloc_count + 1 }

/-- Modelled from the spec: the value part of `Function::restrict`
(Function.h:129-133, spec §4.1): look the cell's global dof index sequence up
in the space (`domainMismatch` for a cell the space does not describe) and
read each index via `get`, in the cell's dof order. -/
def restrict_values (h : Heap) (st : Function) (c : Nat) :
    Except FunctionError (List Scalar) :=
  match st._function_space.cellDofs[c]? with
  | none => .error .domainMismatch
  | some dofs => get h st dofs

/-- Modelled from the spec: `Function::restrict` (Function.h:129-133,
spec §4.1) as a call on the mutable field state: it sizes the scratch for
the element when needed, then computes the restricted coefficients; the
returned state is the field after the call. -/
def restrict (h : Heap) (st : Function) (e : FiniteElement) (c : Nat) :
    Except FunctionError (List Scalar) × Function :=
  let st' := ensure_scratch st e
  (restrict_values h st' c, st')

/-- Modelled from the spec: `Function::compute_off_process_dofs`
(Function.h:158, spec §4.2): scan all locally-held cells via the space,
keep the dof indices the process does not own, deduplicated. -/
def compute_off_process_dofs (st : Function) : List Nat :=
  (((st.localCells.map (fun c => st._function_space.cellDofs.getD c [])).flatten).filter
    (fun d => !owns st d)).dedup

/-- Build the `global_to_local` association from the off-process dof list:
dof at position `i` of the list maps to local cache index `k + i`. -/
def buildG2L : List Nat → Nat → List (Nat × Nat)
  | [], _ => []
  | d :: ds, k => (d, k) :: buildG2L ds (k + 1)

/-- Modelled from the spec: `Function::gather` (Function.h:140, spec §4.2).
`content` is the distributed coefficient vector's global contents at gather
time: entry `d` is the value physically held by the process owning `d`, and
the collective exchange delivers exactly those values.  The call rebuilds
the off-process dof list, the `global_to_local` map, the off-process value
cache and the gather scratch; it writes nothing else (the header marks all
four members `mutable`, so `gather` is callable on a const field). -/
def gather (content : Nat → Scalar) (st : Function) : Function :=
  let dofs := compute_off_process_dofs st
  { st with
    _off_process_dofs := dofs
    global_to_local := buildG2L dofs 0
    _off_process_vector := some (dofs.map content)
    gather_scratch := { dim := dofs.length, inited := true } }

/-- Modelled from the spec: the sub-space assigned to component `i` by the
parent's space (spec §4.5): same global vector layout, cell dof sequences
restricted to the sub-range of component `i`. -/
def extract_sub_space (V : FunctionSpace) (i : Nat) : FunctionSpace :=
  let r := V.subRange.getD i (0, 0)
  { V with cellDofs := V.cellDofs.map (fun ds => ds.filter (fun d => decide (r.1 ≤ d ∧ d < r.2))) }

/-- Modelled from the spec: the sub-function constructor
`Function(const Function& v, uint i)` (Function.h:75, spec §4.5): a shallow
view on the parent — it shares the parent's coefficient vector reference
(no copy) and restricts the dof sequences to component `i`'s sub-range;
its own caches start empty. -/
def extract_sub_function (st : Function) (i : Nat) : Function :=
  { _function_space := extract_sub_space st._function_space i
    vecId := st.vecId
    owned_start := st.owned_start
    owned_end := st.owned_end
    localCells := st.localCells
    _off_process_vector := none
    global_to_local := []
    _off_process_dofs := []
    sub_functions := []
    local_scratch := { size := 0, n_dofs := 0, inited := false }
    gather_scratch := { dim := 0, inited := false }
    local_alloc_count := 0 }

/-- Modelled from the spec: `Function::init_vector` (Function.h:161):
a freshly allocated, zero-filled coefficient vector with one entry per
global dof of the space. -/
def init_vector (V : FunctionSpace) : List Scalar := List.replicate V.globalDim 0

/-- The field state every constructor starts from: the given space, a vector
reference, the process's owned range and local cells, empty caches. -/
def newFunction (V : FunctionSpace) (vid r0 r1 : Nat) (cells : List Nat) : Function :=
  { _function_space := V
    vecId := vid
    owned_start := r0
    owned_end := r1
    localCells := cells
    _off_process_vector := none
    global_to_local := []
    _off_process_dofs := []
    sub_functions := []
    local_scratch := { size := 0, n_dofs := 0, inited := false }
    gather_scratch := { dim := 0, inited := false }
    local_alloc_count := 0 }

/-- Modelled from the spec: the constructors from a space alone
(Function.h:51-54): the coefficient vector is freshly allocated by
`init_vector`, so it has exactly `globalDim` entries.  Returns the new field
state together with the vector stored at its reference. -/
def create (V : FunctionSpace) (vid r0 r1 : Nat) (cells : List Nat) :
    Function × List Scalar :=
  (newFunction V vid r0 r1 cells, init_vector V)

/-- Modelled from the spec: the constructors from a space and a given vector
(Function.h:57-63): the core requires the given vector to satisfy the length
invariant against the space (spec §3, §6), so construction completes only
when the lengths agree. -/
def create_with_vector (V : FunctionSpace) (x : List Scalar) (vid r0 r1 : Nat)
    (cells : List Nat) : Option (Function × List Scalar) :=
  if x.length = V.globalDim then some (newFunction V vid r0 r1 cells, x) else none

/-- Modelled from the spec: the constructors from a persisted vector file
(Function.h:66-69): file I/O is an external collaborator delivering
`fileData`; the core only checks the length invariant (spec §6). -/
def create_from_file (V : FunctionSpace) (fileData : List Scalar) (vid r0 r1 : Nat)
    (cells : List Nat) : Option (Function × List Scalar) :=
  create_with_vector V fileData vid r0 r1 cells

/-- Scale a value tensor by a coefficient. -/
def scaleList (a : Scalar) (l : List Scalar) : List Scalar := l.map (fun b => a * b)

/-- Componentwise sum of value tensors. -/
def addLists (l1 l2 : List Scalar) : List Scalar := List.zipWith (fun a b => a + b) l1 l2

/-- The linear combination u(x) = Σ U_i·φ_i(x) of spec §4.3: weight each
dof's basis value tensor by its coefficient and sum into a zero tensor of
the value size. -/
def linear_combination (coeffs : List Scalar) (phis : List (List Scalar)) (vsize : Nat) :
    List Scalar :=
  (List.zip coeffs phis).foldl (fun acc p => addLists acc (scaleList p.1 p.2))
    (List.replicate vsize 0)

/-- Modelled from the spec: the cell-localized `Function::eval`
(Function.h:120-121, spec §4.3): restrict the coefficients for the cell and
combine them with the element's basis values at the point. -/
def eval_in_cell (h : Heap) (st : Function) (e : FiniteElement) (c : Nat)
    (x : List Scalar) : Except FunctionError (List Scalar) :=
  match restrict_values h st c with
  | .ok coeffs => .ok (linear_combination coeffs (e.basis_values x) e.value_size)
  | .error err => .error err

/-- Modelled from the spec: the point-only `Function::eval` (Function.h:114,
spec §4.3): locate the cell containing the point via the mesh's
point-location service (the header's `intersection_detector`); when no cell
is found the call fails, synchronously, with `pointNotFound` — the caller
receives the error and decides the fallback. -/
def eval (h : Heap) (st : Function) (e : FiniteElement) (mesh : Mesh)
    (x : List Scalar) : Except FunctionError (List Scalar) :=
  match mesh.locate x with
  | none => .error .pointNotFound
  | some c => eval_in_cell h st e c x

/-- The field state after an `eval` call: evaluation restricts through the
same scratch machinery, so the only state it may touch is the local scratch
sizing. -/
def eval_state (st : Function) (e : FiniteElement) : Function := ensure_scratch st e

/-- Dot product of a coefficient list with a basis-value list. -/
def dotList : List Scalar → List Scalar → Scalar
  | a :: as, b :: bs => a * b + dotList as bs
  | _, _ => 0

/-- Write one entry of the per-vertex output array. -/
def arrSet (arr : Nat → Scalar) (k : Nat) (x : Scalar) : Nat → Scalar :=
  fun n => if n = k then x else arr n

/-- The value cell `c` contributes at its cell-local vertex `j`: restricted
coefficients combined with the element's basis at the vertex (spec §4.4); 0
when restriction fails. -/
def cell_vertex_contribution (h : Heap) (st : Function) (e : FiniteElement)
    (c j : Nat) : Scalar :=
  match restrict_values h st c with
  | .ok coeffs => dotList coeffs (e.vertex_basis j)
  | .error _ => 0

/-- Write the values `vals j` into the output array at each vertex of the
list in order, `j` being the cell-local vertex index. -/
def write_verts (vals : Nat → Scalar) : (Nat → Scalar) → List Nat → Nat → (Nat → Scalar)
  | arr, [], _ => arr
  | arr, v :: vs, j => write_verts vals (arrSet arr v (vals j)) vs (j + 1)

/-- Process one cell of `compute_vertex_values`: write the cell's
contribution at each of its vertices into the shared output array. -/
def write_cell (h : Heap) (st : Function) (e : FiniteElement) (mesh : Mesh)
    (arr : Nat → Scalar) (c : Nat) : Nat → Scalar :=
  write_verts (cell_vertex_contribution h st e c) arr (mesh.cellVertices.getD c []) 0

/-- Modelled from the spec: `Function::compute_vertex_values`
(Function.h:136-137, spec §4.4): iterate over the cells in index order and,
for each cell, write its value at each of its vertices into the
caller-supplied output array; a vertex shared by several cells is simply
overwritten by each of them in turn.  Values are per-vertex scalars (the
value-component axis is elided; the claims under study concern write
ordering, not tensor shape). -/
def compute_vertex_values (h : Heap) (st : Function) (e : FiniteElement) (mesh : Mesh)
    (arr : Nat → Scalar) : Nat → Scalar :=
  (List.range mesh.num_cells).foldl (write_cell h st e mesh) arr

/-- The value vertex `v` receives when cell `c` alone is processed over a
zeroed array: the cell's own recorded value for that vertex. -/
def cell_vertex_value (h : Heap) (st : Function) (e : FiniteElement) (mesh : Mesh)
    (c v : Nat) : Scalar :=
  write_cell h st e mesh (fun _ => 0) c v

/-- The last cell in the given iteration order whose vertex list contains
`v` — the cell whose write to `v` lands last. -/
def last_writer (mesh : Mesh) (v : Nat) : List Nat → Option Nat
  | [] => none
  | c :: cs =>
    match last_writer mesh v cs with
    | some c' => some c'
    | none => if v ∈ mesh.cellVertices.getD c [] then some c else none

/-- Example space: 3 global dofs, two cells with dof sequences [0,1] and
[1,2], scalar values, two sub-components. -/
def exSpace : FunctionSpace :=
  { globalDim := 3, cellDofs := [[0, 1], [1, 2]], value_size := 1,
    subRange := [(0, 2), (2, 3)] }

/-- Example element: 2 dofs per cell, scalar-valued. -/
def exElem : FiniteElement :=
  { space_dimension := 2, value_size := 1,
    basis_values := fun _ => [[1], [1]],
    vertex_basis := fun j => if j = 0 then [1, 0] else [0, 1] }

/-- Example two-cell mesh sharing vertex 1, whose point-location service
finds no cell. -/
def exMeshNone : Mesh :=
  { num_cells := 2, num_vertices := 3, cellVertices := [[0, 1], [1, 2]],
    locate := fun _ => none }

/-- Example heap: every vector reference holds [1, 2, 3]. -/
def exHeap : Heap := fun _ => [1, 2, 3]

/-- Example single-process field on `exSpace`: owns the whole range [0, 3). -/
def exField : Function := newFunction exSpace 0 0 3 [0, 1]

/-- Example process-0 field of a two-process run: owns [0, 2) and holds both
cells locally, so dof 2 is an off-process dof it needs. -/
def exFieldP0 : Function := newFunction exSpace 0 0 2 [0, 1]

/-- Example distributed vector contents at gather time. -/
def exContent : Nat → Scalar := fun n => (n : Scalar) + 10

theorem restrict_values_ensure_scratch (h : Heap) (st : Function) (e : FiniteElement)
    (c : Nat) : restrict_values h (ensure_scratch st e) c = restrict_values h st c := by
  unfold ensure_scratch
  split
  · rfl
  · rfl

theorem restrict_values_some (h : Heap) (st : Function) (c : Nat) (dofs : List Nat)
    (hd : st._function_space.cellDofs[c]? = some dofs) :
    restrict_values h st c = get h st dofs := by
  unfold restrict_values
  rw [hd]

theorem ensure_scratch_frame (st : Function) (e : FiniteElement) :
    (ensure_scratch st e)._function_space = st._function_space ∧
    (ensure_scratch st e).vecId = st.vecId ∧
    (ensure_scratch st e).owned_start = st.owned_start ∧
    (ensure_scratch st e).owned_end = st.owned_end ∧
    (ensure_scratch st e).localCells = st.localCells ∧
    (ensure_scratch st e)._off_process_vector = st._off_process_vector ∧
    (ensure_scratch st e).global_to_local = st.global_to_local ∧
    (ensure_scratch st e)._off_process_dofs = st._off_process_dofs ∧
    (ensure_scratch st e).sub_functions = st.sub_functions ∧
    (ensure_scratch st e).gather_scratch = st.gather_scratch := by
  refine ⟨?_, ?_, ?_, ?_, ?_, ?_, ?_, ?_, ?_, ?_⟩ <;> (unfold ensure_scratch; split <;> rfl)

theorem ensure_scratch_sized (st : Function) (e : FiniteElement) :
    ((ensure_scratch st e).local_scratch.inited
      && (ensure_scratch st e).local_scratch.n_dofs == e.space_dimension
      && (ensure_scratch st e).local_scratch.size == e.value_size) = true := by
  unfold ensure_scratch
  split
  · rename_i hc
    exact hc
  · simp

theorem ensure_scratch_of_sized (st : Function) (e : FiniteElement)
    (hc : (st.local_scratch.inited && st.local_scratch.n_dofs == e.space_dimension
      && st.local_scratch.size == e.value_size) = true) :
    ensure_scratch st e = st := by
  unfold ensure_scratch
  rw [if_pos hc]

theorem ensure_scratch_idem (st : Function) (e : FiniteElement) :
    ensure_scratch (ensure_scratch st e) e = ensure_scratch st e :=
  ensure_scratch_of_sized (ensure_scratch st e) e (ensure_scratch_sized st e)

theorem mapE_ok_of_forall (f : Nat → Except FunctionError Scalar) (g : Nat → Scalar)
    (l : List Nat) (hl : ∀ d ∈ l, f d = .ok (g d)) : mapE f l = .ok (l.map g) := by
  induction l with
  | nil => rfl
  | cons d ds ih =>
    have hd : f d = Except.ok (g d) := hl d (List.mem_cons_self d ds)
    have h2 := ih fun x hx => hl x (List.mem_cons_of_mem d hx)
    simp [mapE, hd, h2]

theorem mapE_error_of_mem (f : Nat → Except FunctionError Scalar) (l : List Nat) (d : Nat)
    (hall : ∀ x, (∃ v, f x = .ok v) ∨ f x = .error .staleCache)
    (hd : d ∈ l) (hf : f d = .error .staleCache) :
    mapE f l = .error .staleCache := by
  induction l with
  | nil => cases hd
  | cons a as ih =>
    rcases hall a with ⟨v, hv⟩ | he
    · have hdas : d ∈ as := by
        rcases List.mem_cons.1 hd with rfl | hmem
        · rw [hf] at hv
          simp at hv
        · exact hmem
      simp [mapE, hv, ih hdas]
    · simp [mapE, he]

theorem getOne_ok_or_stale (h : Heap) (st : Function) (x : Nat) :
    (∃ v, getOne h st x = .ok v) ∨ getOne h st x = .error .staleCache := by
  cases hw : owns st x with
  | true => exact Or.inl ⟨vecGet (vecOf h st) x, by simp [getOne, hw]⟩
  | false =>
    cases hc : cacheLookup st x with
    | none => exact Or.inr (by simp [getOne, hw, hc])
    | some v => exact Or.inl ⟨v, by simp [getOne, hw, hc]⟩

theorem buildG2L_lookup (d : Nat) : ∀ (l : List Nat) (k : Nat), d ∈ l →
    ∃ i, i < l.length ∧ l.getD i 0 = d ∧ lookupPairs (buildG2L l k) d = some (k + i) := by
  intro l
  induction l with
  | nil => intro k hk; cases hk
  | cons a t ih =>
    intro k hd
    by_cases ha : a = d
    · subst ha
      exact ⟨0, by simp, by simp, by simp [buildG2L, lookupPairs]⟩
    · have hdt : d ∈ t := by
        rcases List.mem_cons.1 hd with rfl | hmem
        · exact absurd rfl ha
        · exact hmem
      obtain ⟨i, hi, hget, hlk⟩ := ih (k + 1) hdt
      refine ⟨i + 1, by simpa using hi, by simpa using hget, ?_⟩
      simp only [buildG2L, lookupPairs, ha, if_false]
      rw [hlk]
      congr 1
      omega

theorem getD_map_content (f : Nat → Scalar) : ∀ (l : List Nat) (i : Nat), i < l.length →
    (l.map f).getD i 0 = f (l.getD i 0) := by
  intro l
  induction l with
  | nil => intro i hi; simp at hi
  | cons a t ih =>
    intro i hi
    cases i with
    | zero => simp
    | succ j => simpa using ih j (by simpa using hi)

theorem mem_compute_off_process_dofs (st : Function) (c d : Nat) (dofs : List Nat)
    (hc : c ∈ st.localCells) (hdofs : st._function_space.cellDofs[c]? = some dofs)
    (hd : d ∈ dofs) (hown : owns st d = false) :
    d ∈ compute_off_process_dofs st := by
  unfold compute_off_process_dofs
  rw [List.mem_dedup, List.mem_filter]
  refine ⟨?_, by simp [hown]⟩
  rw [List.mem_flatten]
  refine ⟨dofs, ?_, hd⟩
  rw [List.mem_map]
  refine ⟨c, hc, ?_⟩
  simp [List.getD, hdofs]

theorem cacheLookup_gather (content : Nat → Scalar) (st : Function) (d : Nat)
    (hmem : d ∈ compute_off_process_dofs st) :
    cacheLookup (gather content st) d = some (content d) := by
  obtain ⟨i, hi, hget, hlk⟩ := buildG2L_lookup d (compute_off_process_dofs st) 0 hmem
  have h1 : (gather content st)._off_process_vector
      = some ((compute_off_process_dofs st).map content) := rfl
  have h2 : (gather content st).global_to_local
      = buildG2L (compute_off_process_dofs st) 0 := rfl
  unfold cacheLookup
  rw [h1, h2, hlk]
  simp only [Nat.zero_add]
  rw [getD_map_content content _ i hi, hget]

theorem write_verts_not_mem (vals : Nat → Scalar) (v : Nat) :
    ∀ (vs : List Nat) (arr : Nat → Scalar) (j : Nat), v ∉ vs →
      write_verts vals arr vs j v = arr v := by
  intro vs
  induction vs with
  | nil => intro arr j hv; rfl
  | cons u us ih =>
    intro arr j hv
    have hvu : v ≠ u := fun hh => hv (hh ▸ List.mem_cons_self u us)
    have hvus : v ∉ us := fun hh => hv (List.mem_cons_of_mem u hh)
    simp only [write_verts]
    rw [ih _ _ hvus]
    simp [arrSet, hvu]

theorem write_verts_congr (vals : Nat → Scalar) (v : Nat) :
    ∀ (vs : List Nat) (arr arr2 : Nat → Scalar) (j : Nat), arr v = arr2 v →
      write_verts vals arr vs j v = write_verts vals arr2 vs j v := by
  intro vs
  induction vs with
  | nil => intro arr arr2 j hv; exact hv
  | cons u us ih =>
    intro arr arr2 j hv
    simp only [write_verts]
    apply ih
    simp only [arrSet]
    split
    · rfl
    · exact hv

theorem write_verts_mem (vals : Nat → Scalar) (v : Nat) :
    ∀ (vs : List Nat) (arr arr2 : Nat → Scalar) (j : Nat), v ∈ vs →
      write_verts vals arr vs j v = write_verts vals arr2 vs j v := by
  intro vs
  induction vs with
  | nil => intro arr arr2 j hv; cases hv
  | cons u us ih =>
    intro arr arr2 j hv
    simp only [write_verts]
    by_cases hm : v ∈ us
    · exact ih _ _ _ hm
    · have hvu : v = u := by
        rcases List.mem_cons.1 hv with hh | hh
        · exact hh
        · exact absurd hh hm
      apply write_verts_congr
      simp [arrSet, hvu]

theorem write_cell_mem (h : Heap) (st : Function) (e : FiniteElement) (mesh : Mesh)
    (arr arr2 : Nat → Scalar) (c v : Nat) (hv : v ∈ mesh.cellVertices.getD c []) :
    write_cell h st e mesh arr c v = write_cell h st e mesh arr2 c v :=
  write_verts_mem _ v _ arr arr2 0 hv

theorem write_cell_not_mem (h : Heap) (st : Function) (e : FiniteElement) (mesh : Mesh)
    (arr : Nat → Scalar) (c v : Nat) (hv : v ∉ mesh.cellVertices.getD c []) :
    write_cell h st e mesh arr c v = arr v :=
  write_verts_not_mem _ v _ arr 0 hv

theorem foldl_write_cell (h : Heap) (st : Function) (e : FiniteElement) (mesh : Mesh)
    (v : Nat) : ∀ (cells : List Nat) (arr : Nat → Scalar),
      (cells.foldl (write_cell h st e mesh) arr) v
        = match last_writer mesh v cells with
          | some c => cell_vertex_value h st e mesh c v
          | none => arr v := by
  intro cells
  induction cells with
  | nil => intro arr; rfl
  | cons c cs ih =>
    intro arr
    simp only [List.foldl_cons]
    rw [ih]
    cases hlw : last_writer mesh v cs with
    | some c2 => simp [last_writer, hlw]
    | none =>
      by_cases hv : v ∈ mesh.cellVertices.getD c []
      · simp only [last_writer, hlw, hv, if_true]
        exact write_cell_mem h st e mesh arr _ c v hv
      · simp only [last_writer, hlw, hv, if_false]
        exact write_cell_not_mem h st e mesh arr c v hv

/-- C1: for every cell of the field's space, `restrict` returns exactly the
per-cell dof count of the cell's element many values, in the dof order
defined by the space, and in a single-process configuration (the process
owns the whole global range) each returned value is the coefficient
vector's entry at the corresponding global dof index of the space's cell
dof sequence. -/
theorem C1_restrict_single_process (h : Heap) (st : Function) (e : FiniteElement)
    (c : Nat) (dofs : List Nat)
    (hdofs : st._function_space.cellDofs[c]? = some dofs)
    (hlen : dofs.length = e.space_dimension)
    (hstart : st.owned_start = 0)
    (hcover : st._function_space.globalDim ≤ st.owned_end)
    (hwf : ∀ d ∈ dofs, d < st._function_space.globalDim) :
    (restrict h st e c).1 = .ok (dofs.map (fun d => vecGet (vecOf h st) d)) ∧
    (dofs.map (fun d => vecGet (vecOf h st) d)).length = e.space_dimension := by
  constructor
  · show restrict_values h (ensure_scratch st e) c = _
    rw [restrict_values_ensure_scratch, restrict_values_some h st c dofs hdofs]
    apply mapE_ok_of_forall
    intro d hd
    have ho : owns st d = true := by
      unfold owns
      have hlt := hwf d hd
      simp only [hstart, Bool.and_eq_true, decide_eq_true_eq]
      omega
    simp [getOne, ho]
  · simp [hlen]

theorem C1_restrict_single_process_witness :
    (restrict exHeap exField exElem 0).1
      = .ok ([0, 1].map (fun d => vecGet (vecOf exHeap exField) d)) ∧
    ([0, 1].map (fun d => vecGet (vecOf exHeap exField) d)).length = exElem.space_dimension :=
  C1_restrict_single_process exHeap exField exElem 0 [0, 1] rfl rfl rfl (by decide)
    (by decide)

/-- C2: after a completed `gather()`, for every global dof index that some
local cell needs but the calling process does not own, the value in the
calling process's off-process cache for that index equals the value held at
that index by the owning process at gather time (`content d` is the entry
physically held by the owner of `d` in the distributed vector); `st` ranges
over the local state of every process sharing the distribution. -/
theorem C2_gather_off_process_cache (content : Nat → Scalar) (st : Function)
    (c d : Nat) (dofs : List Nat)
    (hc : c ∈ st.localCells)
    (hdofs : st._function_space.cellDofs[c]? = some dofs)
    (hd : d ∈ dofs)
    (hown : owns st d = false) :
    cacheLookup (gather content st) d = some (content d) :=
  cacheLookup_gather content st d
    (mem_compute_off_process_dofs st c d dofs hc hdofs hd hown)

theorem C2_gather_off_process_cache_witness :
    cacheLookup (gather exContent exFieldP0) 2 = some (exContent 2) :=
  C2_gather_off_process_cache exContent exFieldP0 1 2 [1, 2] (by decide) rfl
    (by decide) (by decide)

/-- C3: when a cell's dof sequence contains a non-owned global index that is
absent from the off-process cache, `restrict` fails with the StaleCache
error — it never silently substitutes a value for the uncached index. -/
theorem C3_restrict_stale_cache_error (h : Heap) (st : Function) (e : FiniteElement)
    (c : Nat) (dofs : List Nat) (d : Nat)
    (hdofs : st._function_space.cellDofs[c]? = some dofs)
    (hd : d ∈ dofs)
    (hown : owns st d = false)
    (hmiss : cacheLookup st d = none) :
    (restrict h st e c).1 = .error .staleCache := by
  show restrict_values h (ensure_scratch st e) c = _
  rw [restrict_values_ensure_scratch, restrict_values_some h st c dofs hdofs]
  apply mapE_error_of_mem _ _ d (getOne_ok_or_stale h st) hd
  simp [getOne, hown, hmiss]

theorem C3_restrict_stale_cache_error_witness :
    (restrict exHeap exFieldP0 exElem 1).1 = .error .staleCache :=
  C3_restrict_stale_cache_error exHeap exFieldP0 exElem 1 [1, 2] 2 rfl (by decide)
    (by decide) rfl

/-- C4: every constructor (from a space alone, from a space with a given
vector, from a space with a persisted vector file) leaves the coefficient
vector with exactly the space's total global dof count many entries, and
the field's own operations keep the same vector for the field's lifetime
(they never reallocate or replace it — `gather` and `restrict` preserve the
vector reference and the model gives them no way to write the heap). -/
theorem C4_constructor_length_invariant (V : FunctionSpace) (x fileData : List Scalar)
    (vid r0 r1 : Nat) (cells : List Nat) (st1 st2 stAny : Function)
    (v1 v2 : List Scalar) (content : Nat → Scalar) (h : Heap) (e : FiniteElement)
    (c : Nat)
    (h1 : create_with_vector V x vid r0 r1 cells = some (st1, v1))
    (h2 : create_from_file V fileData vid r0 r1 cells = some (st2, v2)) :
    (create V vid r0 r1 cells).2.length = V.globalDim ∧
    v1.length = V.globalDim ∧
    v2.length = V.globalDim ∧
    (gather content stAny).vecId = stAny.vecId ∧
    (restrict h stAny e c).2.vecId = stAny.vecId := by
  refine ⟨by simp [create, init_vector], ?_, ?_, rfl, ?_⟩
  · unfold create_with_vector at h1
    split at h1
    · rename_i hl
      rw [Option.some.injEq, Prod.mk.injEq] at h1
      rw [← h1.2]
      exact hl
    · simp at h1
  · unfold create_from_file create_with_vector at h2
    split at h2
    · rename_i hl
      rw [Option.some.injEq, Prod.mk.injEq] at h2
      rw [← h2.2]
      exact hl
    · simp at h2
  · show (ensure_scratch stAny e).vecId = stAny.vecId
    exact (ensure_scratch_frame stAny e).2.1

theorem C4_constructor_length_invariant_witness :
    (create exSpace 7 0 3 [0, 1]).2.length = exSpace.globalDim ∧
    ([4, 5, 6] : List Scalar).length = exSpace.globalDim ∧
    ([7, 8, 9] : List Scalar).length = exSpace.globalDim ∧
    (gather exContent exField).vecId = exField.vecId ∧
    (restrict exHeap exField exElem 0).2.vecId = exField.vecId :=
  C4_constructor_length_invariant exSpace [4, 5, 6] [7, 8, 9] 7 0 3 [0, 1]
    (newFunction exSpace 7 0 3 [0, 1]) (newFunction exSpace 7 0 3 [0, 1]) exField
    [4, 5, 6] [7, 8, 9] exContent exHeap exElem 0 rfl rfl

/-- C5: the sub-field view obtained from a field shares the parent's
coefficient vector rather than copying it: it holds the same vector
reference, and after the parent's vector is overwritten with `w` the
previously obtained child view reads `w` — both as the whole vector and
through a per-dof `getOne` read — without being re-fetched. -/
theorem C5_sub_function_shares_vector (h : Heap) (st : Function) (i d : Nat)
    (w : List Scalar) (howns : owns st d = true) :
    (extract_sub_function st i).vecId = st.vecId ∧
    vecOf (heapSet h st.vecId w) (extract_sub_function st i) = w ∧
    getOne (heapSet h st.vecId w) (extract_sub_function st i) d = .ok (vecGet w d) := by
  refine ⟨rfl, ?_, ?_⟩
  · simp [vecOf, heapSet, extract_sub_function]
  · have ho : owns (extract_sub_function st i) d = true := howns
    have hv : vecOf (heapSet h st.vecId w) (extract_sub_function st i) = w := by
      simp [vecOf, heapSet, extract_sub_function]
    simp [getOne, ho, hv]

theorem C5_sub_function_shares_vector_witness :
    (extract_sub_function exField 0).vecId = exField.vecId ∧
    vecOf (heapSet exHeap exField.vecId [3, 4, 5]) (extract_sub_function exField 0)
      = [3, 4, 5] ∧
    getOne (heapSet exHeap exField.vecId [3, 4, 5]) (extract_sub_function exField 0) 1
      = .ok (vecGet [3, 4, 5] 1) :=
  C5_sub_function_shares_vector exHeap exField 0 1 [3, 4, 5] (by decide)

/-- C6: in `compute_vertex_values`, the value recorded for a vertex equals
the value computed from the cell processed last in the defined cell
iteration order among the cells containing it (last writer wins, no
averaging of the sharing cells' contributions). -/
theorem C6_vertex_value_last_writer_wins (h : Heap) (st : Function) (e : FiniteElement)
    (mesh : Mesh) (arr : Nat → Scalar) (v c : Nat)
    (hc : last_writer mesh v (List.range mesh.num_cells) = some c) :
    compute_vertex_values h st e mesh arr v = cell_vertex_value h st e mesh c v := by
  unfold compute_vertex_values
  rw [foldl_write_cell, hc]

theorem C6_vertex_value_last_writer_wins_witness :
    last_writer exMeshNone 1 (List.range exMeshNone.num_cells) = some 1 ∧
    compute_vertex_values exHeap exField exElem exMeshNone (fun _ => 0) 1
      = cell_vertex_value exHeap exField exElem exMeshNone 1 1 :=
  ⟨by decide,
    C6_vertex_value_last_writer_wins exHeap exField exElem exMeshNone (fun _ => 0) 1 1
      (by decide)⟩

/-- C7: point evaluation is deterministic and mutates no field state other
than its reusable scratch: a second `eval` on the state left behind by a
first call (identical coefficients, identical point) returns identical
values, and the post-call state keeps the coefficient vector reference, the
function space, the sub-field cache and the whole off-process cache
unchanged. -/
theorem C7_eval_deterministic_no_mutation (h : Heap) (st : Function) (e : FiniteElement)
    (mesh : Mesh) (x : List Scalar) :
    eval h (eval_state st e) e mesh x = eval h st e mesh x ∧
    (eval_state st e).vecId = st.vecId ∧
    (eval_state st e)._function_space = st._function_space ∧
    (eval_state st e).sub_functions = st.sub_functions ∧
    (eval_state st e)._off_process_vector = st._off_process_vector ∧
    (eval_state st e).global_to_local = st.global_to_local ∧
    (eval_state st e)._off_process_dofs = st._off_process_dofs := by
  have hfr := ensure_scratch_frame st e
  refine ⟨?_, hfr.2.1, hfr.1, hfr.2.2.2.2.2.2.2.2.1, hfr.2.2.2.2.2.1,
    hfr.2.2.2.2.2.2.1, hfr.2.2.2.2.2.2.2.1⟩
  unfold eval
  cases hm : mesh.locate x with
  | none => rfl
  | some c =>
    show eval_in_cell h (ensure_scratch st e) e c x = eval_in_cell h st e c x
    unfold eval_in_cell
    rw [restrict_values_ensure_scratch]

/-- C8: a point-only evaluation for which the mesh's point-location service
finds no containing cell fails, synchronously and recoverably, with the
PointNotFound error. -/
theorem C8_eval_point_not_found (h : Heap) (st : Function) (e : FiniteElement)
    (mesh : Mesh) (x : List Scalar) (hloc : mesh.locate x = none) :
    eval h st e mesh x = .error .pointNotFound := by
  unfold eval
  rw [hloc]

theorem C8_eval_point_not_found_witness :
    eval exHeap exField exElem exMeshNone [0, 0] = .error .pointNotFound :=
  C8_eval_point_not_found exHeap exField exElem exMeshNone [0, 0] rfl

/-- C9: after the first `restrict` call for a given space's element, every
subsequent `restrict` on the same field for the same element leaves the
field state — in particular the scratch sizing and the allocation count —
exactly unchanged: the scratch buffers are sized once and reused, with no
heap allocation on the steady-state path. -/
theorem C9_restrict_no_realloc_steady_state (h h2 : Heap) (st : Function)
    (e : FiniteElement) (c c2 : Nat) :
    (restrict h2 (restrict h st e c).2 e c2).2 = (restrict h st e c).2 ∧
    (restrict h2 (restrict h st e c).2 e c2).2.local_alloc_count
      = (restrict h st e c).2.local_alloc_count := by
  have hidem := ensure_scratch_idem st e
  constructor
  · show ensure_scratch (ensure_scratch st e) e = ensure_scratch st e
    exact hidem
  · show (ensure_scratch (ensure_scratch st e) e).local_alloc_count
      = (ensure_scratch st e).local_alloc_count
    rw [hidem]

/-- C10: `gather` never modifies the field's owned coefficient vector (the
vector reference is preserved, and `gather` has no access to the vector
heap at all), its function space, its sub-field cache, its owned range, its
local cell list, or the restriction scratch; the only members it writes are
the off-process cache members and the gather scratch, which is why the
header marks exactly those `mutable` and `gather` is callable on a
logically-const field. -/
theorem C10_gather_frame (content : Nat → Scalar) (st : Function) :
    (gather content st).vecId = st.vecId ∧
    (gather content st)._function_space = st._function_space ∧
    (gather content st).owned_start = st.owned_start ∧
    (gather content st).owned_end = st.owned_end ∧
    (gather content st).localCells = st.localCells ∧
    (gather content st).sub_functions = st.sub_functions ∧
    (gather content st).local_scratch = st.local_scratch ∧
    (gather content st).local_alloc_count = st.local_alloc_count :=
  ⟨rfl, rfl, rfl, rfl, rfl, rfl, rfl, rfl⟩

end dolfin
